import Mathlib

/-!
Verification of the catalog/metadata selection-resolution core
(`singer_sdk/helpers/_singer.py`).

Python dictionaries are embedded as insertion-ordered association lists
(`List (key × value)`); dictionary assignment (`d[k] = v`) replaces in place
when the key is present and appends otherwise, matching CPython dict
semantics.  Machine-level concerns do not arise: all data is symbolic
(strings, booleans, lists).
-/

namespace SingerSdk

/-- Breadcrumb: ordered path identifying a node in a schema tree
(`Breadcrumb = Tuple[str, ...]`, line 17 of `_singer.py`). -/
abbrev Breadcrumb := List String

/-- `Metadata.InclusionType` enum (lines 52-57): `available`, `automatic`,
`unsupported`. -/
inductive InclusionType where
  | available
  | automatic
  | unsupported
deriving DecidableEq, Repr

/-- `Metadata` dataclass (lines 48-61): per-breadcrumb annotations, all
optional (tri-state: set true / set false / unset for the booleans). -/
structure Metadata where
  inclusion : Option InclusionType := none
  selected : Option Bool := none
  selected_by_default : Option Bool := none
deriving DecidableEq, Repr

/-- `StreamMetadata` dataclass (lines 85-92).  The Python class inherits from
`Metadata`; dataclass field order is base fields first, then the stream-level
fields.  We flatten the inheritance into a single record with the same field
order. -/
structure StreamMetadata where
  inclusion : Option InclusionType := none
  selected : Option Bool := none
  selected_by_default : Option Bool := none
  table_key_properties : Option (List String) := none
  forced_replication_method : Option String := none
  valid_replication_keys : Option (List String) := none
  schema_name : Option String := none
deriving DecidableEq, Repr

/-- `AnyMetadata = Union[Metadata, StreamMetadata]` (line 95). -/
inductive AnyMetadata where
  | base (m : Metadata)
  | stream (m : StreamMetadata)
deriving DecidableEq, Repr

def AnyMetadata.inclusion : AnyMetadata → Option InclusionType
  | .base m => m.inclusion
  | .stream m => m.inclusion

def AnyMetadata.selected : AnyMetadata → Option Bool
  | .base m => m.selected
  | .stream m => m.selected

def AnyMetadata.selected_by_default : AnyMetadata → Option Bool
  | .base m => m.selected_by_default
  | .stream m => m.selected_by_default

/-- `MetadataMapping` (line 98): a dict from breadcrumb to metadata record,
embedded as an insertion-ordered association list. -/
abbrev MetadataMapping := List (Breadcrumb × AnyMetadata)

/-- `SelectionMask` (line 32): a dict from breadcrumb to boolean. -/
abbrev SelectionMask := List (Breadcrumb × Bool)

/-- Association-list lookup: the embedding of Python `d.get(k)` /
`k in d` on an insertion-ordered dict. -/
def alookup {κ α : Type} [DecidableEq κ] : List (κ × α) → κ → Option α
  | [], _ => none
  | (k, v) :: rest, key => if k = key then some v else alookup rest key

/-- Dict assignment `d[k] = v`: replace in place when the key is present,
append otherwise. -/
def mmInsert {κ α : Type} [DecidableEq κ] : List (κ × α) → κ → α → List (κ × α)
  | [], key, v => [(key, v)]
  | (k, w) :: rest, key, v =>
      if k = key then (k, v) :: rest else (k, w) :: mmInsert rest key v

/-- Parent-of relation on breadcrumbs: `breadcrumb[:-2]` (lines 42 and 188),
i.e. drop the trailing two segments. -/
def parentOf (b : Breadcrumb) : Breadcrumb := b.take (b.length - 2)

/-- `MetadataMapping._breadcrumb_is_selected` (lines 174-224), in
state-passing form: the mapping is threaded through every dictionary access
so that (non-)materialization of entries is visible.  Line 184 reads the
entry with `self.get(breadcrumb, Metadata())`, a non-materializing read;
every `return` yields the value together with the dict state current at that
point.  The recursion on line 189 resolves the parent breadcrumb first. -/
def breadcrumbIsSelectedS (m : MetadataMapping) (b : Breadcrumb) :
    Bool × MetadataMapping :=
  if m.isEmpty then
    -- `if not self: return True` (lines 180-182)
    (true, m)
  else
    let md_entry := (alookup m b).getD (AnyMetadata.base {})
    let pr : Option Bool × MetadataMapping :=
      if _h : 0 < b.length then
        let r := breadcrumbIsSelectedS m (parentOf b)
        (some r.1, r.2)
      else
        (none, m)
    let result : Bool :=
      if pr.1 = some false then false
      else if md_entry.inclusion = some InclusionType.unsupported then false
      else if md_entry.inclusion = some InclusionType.automatic then true
      else
        match md_entry.selected with
        | some s => s
        | none =>
          match md_entry.selected_by_default with
          | some s => s
          | none =>
            -- `return parent_value or False` (line 224)
            pr.1.getD false
    (result, pr.2)
termination_by b.length
decreasing_by
  simp only [parentOf, List.length_take]
  omega

/-- The resolved selection value of a breadcrumb (the boolean component of
`_breadcrumb_is_selected`). -/
def breadcrumbIsSelected (m : MetadataMapping) (b : Breadcrumb) : Bool :=
  (breadcrumbIsSelectedS m b).1

/-- `_breadcrumb_is_selected` never mutates the mapping: the only dictionary
access on its path is the non-materializing `self.get`. -/
theorem breadcrumbIsSelectedS_snd (b : Breadcrumb) (m : MetadataMapping) :
    (breadcrumbIsSelectedS m b).2 = m := by
  have H : ∀ (n : Nat) (b : Breadcrumb), b.length ≤ n → ∀ m : MetadataMapping,
      (breadcrumbIsSelectedS m b).2 = m := by
    intro n
    induction n with
    | zero =>
      intro b hb m
      rw [breadcrumbIsSelectedS]
      have hb0 : b.length = 0 := Nat.le_zero.mp hb
      by_cases he : m.isEmpty
      · simp [he]
      · simp [he, hb0]
    | succ n ih =>
      intro b hb m
      rw [breadcrumbIsSelectedS]
      by_cases he : m.isEmpty
      · simp [he]
      · by_cases hl : 0 < b.length
        · have hp : (parentOf b).length ≤ n := by
            simp only [parentOf, List.length_take]
            omega
          simp [he, hl, ih (parentOf b) hp m]
        · simp [he, hl]
  exact H b.length b le_rfl m

/-- Pure unfolding of one resolution step, matching the source line by line:
empty-mapping shortcut, parent-first recursion, parent-deselection cut,
`unsupported`, `automatic`, explicit `selected`, `selected_by_default`,
inherited parent value with `False` fallback. -/
theorem breadcrumbIsSelected_eq (m : MetadataMapping) (b : Breadcrumb) :
    breadcrumbIsSelected m b =
      (if m.isEmpty then true
       else
         let md_entry := (alookup m b).getD (AnyMetadata.base {})
         let parent_value : Option Bool :=
           if 0 < b.length then some (breadcrumbIsSelected m (parentOf b))
           else none
         if parent_value = some false then false
         else if md_entry.inclusion = some InclusionType.unsupported then false
         else if md_entry.inclusion = some InclusionType.automatic then true
         else
           match md_entry.selected with
           | some s => s
           | none =>
             match md_entry.selected_by_default with
             | some s => s
             | none => parent_value.getD false) := by
  conv_lhs => rw [breadcrumbIsSelected, breadcrumbIsSelectedS]
  by_cases he : m.isEmpty
  · simp [he]
  · by_cases hl : 0 < b.length
    · simp [he, hl, breadcrumbIsSelected]
    · simp [he, hl]

theorem alookup_eq_none {κ α : Type} [DecidableEq κ] (l : List (κ × α)) (k : κ) :
    alookup l k = none ↔ k ∉ l.map Prod.fst := by
  induction l with
  | nil => simp [alookup]
  | cons p rest ih =>
    obtain ⟨k', v⟩ := p
    by_cases hk : k' = k
    · subst hk
      simp [alookup]
    · simp [alookup, hk, ih, Ne.symm hk]

theorem alookup_append {κ α : Type} [DecidableEq κ] (l₁ l₂ : List (κ × α)) (k : κ) :
    alookup (l₁ ++ l₂) k = (alookup l₁ k).or (alookup l₂ k) := by
  induction l₁ with
  | nil => simp [alookup]
  | cons p rest ih =>
    by_cases hk : p.1 = k
    · simp [alookup, hk]
    · simp [alookup, hk, ih]

theorem mmInsert_append {κ α : Type} [DecidableEq κ] (l : List (κ × α)) (k : κ)
    (v : α) (h : alookup l k = none) : mmInsert l k v = l ++ [(k, v)] := by
  induction l with
  | nil => simp [mmInsert]
  | cons p rest ih =>
    by_cases hk : p.1 = k
    · rw [alookup] at h
      simp [hk] at h
    · rw [alookup] at h
      simp [hk] at h
      simp [mmInsert, hk, ih h]

theorem alookup_map_of_nodup {κ α β : Type} [DecidableEq κ] (f : β → κ) (g : β → α) :
    ∀ (l : List β) (y : β), (l.map f).Nodup → y ∈ l →
      alookup (l.map fun x => (f x, g x)) (f y) = some (g y) := by
  intro l
  induction l with
  | nil => intro y _ hy; simp at hy
  | cons x rest ih =>
    intro y hnd hy
    rcases List.mem_cons.mp hy with hxy | hmem
    · subst hxy
      simp [alookup]
    · by_cases hf : f x = f y
      · exfalso
        simp only [List.map_cons, List.nodup_cons] at hnd
        exact hnd.1 (hf ▸ List.mem_map_of_mem f hmem)
      · simp only [List.map_cons, alookup, hf, if_false]
        exact ih y (by simp at hnd; exact hnd.2) hmem

theorem foldl_mmInsert_fresh {κ α β : Type} [DecidableEq κ] (f : β → κ) (g : β → α) :
    ∀ (l : List β) (acc : List (κ × α)), (l.map f).Nodup →
      (∀ x ∈ l, alookup acc (f x) = none) →
      l.foldl (fun mp x => mmInsert mp (f x) (g x)) acc
        = acc ++ l.map fun x => (f x, g x) := by
  intro l
  induction l with
  | nil => intro acc _ _; simp
  | cons x rest ih =>
    intro acc hnd hfresh
    simp only [List.foldl_cons]
    rw [mmInsert_append acc (f x) (g x) (hfresh x (List.mem_cons_self x rest))]
    rw [ih (acc ++ [(f x, g x)]) (by simp at hnd; exact hnd.2) ?_]
    · simp
    · intro y hy
      rw [alookup_append]
      have h1 : alookup acc (f y) = none := hfresh y (List.mem_cons_of_mem x hy)
      have h2 : f x ≠ f y := by
        simp only [List.map_cons, List.nodup_cons] at hnd
        intro hc
        exact hnd.1 (hc ▸ List.mem_map_of_mem f hy)
      simp [h1, alookup, h2]

/-- `MetadataMapping.resolve_selection` (lines 167-172), state-passing: the
dict comprehension iterates the mapping's keys (`for breadcrumb in self`) and
pairs each with its `_breadcrumb_is_selected` value, threading the mapping
state through each resolution call. -/
def resolve_selectionS (m : MetadataMapping) : SelectionMask × MetadataMapping :=
  (m.map Prod.fst).foldl
    (fun acc breadcrumb =>
      let r := breadcrumbIsSelectedS acc.2 breadcrumb
      (mmInsert acc.1 breadcrumb r.1, r.2))
    ([], m)

/-- The selection mask produced by `resolve_selection`. -/
def resolve_selection (m : MetadataMapping) : SelectionMask :=
  (resolve_selectionS m).1

/-- `SelectionMask` lookup including `SelectionMask.__missing__`
(lines 35-45): an explicit entry wins; a missing breadcrumb of length ≥ 2
falls back to its parent `breadcrumb[:-2]` recursively; a missing breadcrumb
of length < 2 (the root, or a malformed odd path) defaults to `True`.
`__missing__` only returns — it does not materialize entries. -/
def maskLookup (mask : SelectionMask) (b : Breadcrumb) : Bool :=
  match alookup mask b with
  | some v => v
  | none =>
    if _h : 2 ≤ b.length then maskLookup mask (b.take (b.length - 2)) else true
termination_by b.length
decreasing_by
  simp only [List.length_take]
  omega

/-- Looking any breadcrumb up in an empty selection mask yields `true`. -/
theorem maskLookup_nil (b : Breadcrumb) : maskLookup [] b = true := by
  have H : ∀ (n : Nat) (b : Breadcrumb), b.length ≤ n → maskLookup [] b = true := by
    intro n
    induction n with
    | zero =>
      intro b hb
      rw [maskLookup]
      have hb0 : b.length = 0 := Nat.le_zero.mp hb
      simp [alookup, hb0]
    | succ n ih =>
      intro b hb
      rw [maskLookup]
      by_cases hl : 2 ≤ b.length
      · have : (b.take (b.length - 2)).length ≤ n := by
          simp only [List.length_take]
          omega
        simp [alookup, hl, ih _ this]
      · simp [alookup, hl]
  exact H b.length b le_rfl

theorem isEmpty_eq_false_of_ne_nil {α : Type} {l : List α} (h : l ≠ []) :
    l.isEmpty = false := by
  cases l with
  | nil => exact absurd rfl h
  | cons x xs => rfl

theorem isEmpty_eq_false_of_alookup_some {κ α : Type} [DecidableEq κ]
    {l : List (κ × α)} {k : κ} {v : α} (h : alookup l k = some v) :
    l.isEmpty = false := by
  cases l with
  | nil => rw [alookup] at h; cases h
  | cons x xs => rfl

/-- Example mapping: root explicitly deselected, one property with no
annotations. -/
def exampleM1 : MetadataMapping :=
  [([], .stream { selected := some false }),
   (["properties", "a"], .base {})]

/-- Example mapping: one unsupported property that the operator tried to
select. -/
def exampleM2 : MetadataMapping :=
  [(["properties", "a"],
    .base { inclusion := some .unsupported, selected := some true })]

/-- Example mapping: a lone `automatic` property and no root entry. -/
def exampleM3 : MetadataMapping :=
  [(["properties", "a"], .base { inclusion := some .automatic })]

/-- Example mapping: root explicitly selected, one `automatic` property that
the operator tried to deselect. -/
def exampleM4 : MetadataMapping :=
  [([], .stream { selected := some true }),
   (["properties", "a"],
    .base { inclusion := some .automatic, selected := some false })]

/-- Example mapping: root carrying only a `selected-by-default` hint. -/
def exampleM5 : MetadataMapping :=
  [([], .stream { selected_by_default := some true })]

/-- C1: downward monotonicity of selection resolution — for every metadata
mapping and every non-empty breadcrumb, if the parent breadcrumb resolves to
not-selected then the breadcrumb resolves to not-selected, regardless of the
breadcrumb's own inclusion / selected / selected-by-default values. -/
theorem selection_downward_monotonic (m : MetadataMapping) (b : Breadcrumb)
    (hb : b ≠ []) (hp : breadcrumbIsSelected m (parentOf b) = false) :
    breadcrumbIsSelected m b = false := by
  rw [breadcrumbIsSelected_eq]
  by_cases he : m.isEmpty
  · rw [breadcrumbIsSelected_eq] at hp
    simp [he] at hp
  · have hl : 0 < b.length := List.length_pos.mpr hb
    simp [he, hl, hp]

theorem selection_downward_monotonic_witness :
    breadcrumbIsSelected exampleM1 ["properties", "a"] = false := by
  apply selection_downward_monotonic exampleM1 ["properties", "a"] (by simp)
  rw [show parentOf ["properties", "a"] = [] from rfl, breadcrumbIsSelected_eq]
  simp [exampleM1, alookup, AnyMetadata.selected, AnyMetadata.inclusion]

/-- C2: an explicit metadata entry with inclusion `unsupported` resolves to
not-selected, regardless of its explicit `selected` value. -/
theorem unsupported_never_selected (m : MetadataMapping) (b : Breadcrumb)
    (md : AnyMetadata) (hlk : alookup m b = some md)
    (hinc : md.inclusion = some InclusionType.unsupported) :
    breadcrumbIsSelected m b = false := by
  have hne : m.isEmpty = false := isEmpty_eq_false_of_alookup_some hlk
  rw [breadcrumbIsSelected_eq]
  simp [hne, hlk, hinc, ite_self]

theorem unsupported_never_selected_witness :
    breadcrumbIsSelected exampleM2 ["properties", "a"] = false :=
  unsupported_never_selected exampleM2 ["properties", "a"]
    (.base { inclusion := some .unsupported, selected := some true }) rfl rfl

/-- C3 counterexample: a property whose entry has inclusion `automatic`
resolves to NOT-selected when its parent resolves to not-selected (here the
root has no entry and a non-empty mapping, so it resolves to not-selected and
cuts the child off before the `automatic` rule is reached). -/
theorem automatic_not_always_selected_cex :
    alookup exampleM3 ["properties", "a"]
        = some (.base { inclusion := some .automatic }) ∧
    breadcrumbIsSelected exampleM3 ["properties", "a"] = false := by
  refine ⟨rfl, ?_⟩
  rw [breadcrumbIsSelected_eq]
  rw [show parentOf ["properties", "a"] = [] from rfl, breadcrumbIsSelected_eq]
  simp [exampleM3, alookup, AnyMetadata.selected, AnyMetadata.inclusion,
    AnyMetadata.selected_by_default]

/-- C3 amended: a breadcrumb whose metadata entry has inclusion `automatic`
resolves to selected regardless of its explicit `selected` value, provided
its parent (when the breadcrumb is non-empty) itself resolves to selected. -/
theorem automatic_selected_under_selected_parent (m : MetadataMapping)
    (b : Breadcrumb) (md : AnyMetadata) (hlk : alookup m b = some md)
    (hinc : md.inclusion = some InclusionType.automatic)
    (hp : b ≠ [] → breadcrumbIsSelected m (parentOf b) = true) :
    breadcrumbIsSelected m b = true := by
  have hne : m.isEmpty = false := isEmpty_eq_false_of_alookup_some hlk
  rw [breadcrumbIsSelected_eq]
  by_cases hb : b = []
  · subst hb
    simp [hne, hlk, hinc]
  · have hl : 0 < b.length := List.length_pos.mpr hb
    simp [hne, hlk, hinc, hl, hp hb]

theorem automatic_selected_under_selected_parent_witness :
    breadcrumbIsSelected exampleM4 ["properties", "a"] = true := by
  apply automatic_selected_under_selected_parent exampleM4 ["properties", "a"]
    (.base { inclusion := some .automatic, selected := some false }) rfl rfl
  intro _
  rw [show parentOf ["properties", "a"] = [] from rfl, breadcrumbIsSelected_eq]
  simp [exampleM4, alookup, AnyMetadata.selected, AnyMetadata.inclusion]

/-- C4: fallback precedence within one node — when the mapping is non-empty,
the node's inclusion is neither `unsupported` nor `automatic`, and its parent
(when one exists) resolves to selected, the resolved value is the explicit
`selected` value when present, else the `selected-by-default` value when
present, else the parent's resolved value, the root (which has no parent)
defaulting to not-selected. -/
theorem fallback_precedence (m : MetadataMapping) (b : Breadcrumb)
    (hm : m ≠ [])
    (hinc1 : ((alookup m b).getD (AnyMetadata.base {})).inclusion
        ≠ some InclusionType.unsupported)
    (hinc2 : ((alookup m b).getD (AnyMetadata.base {})).inclusion
        ≠ some InclusionType.automatic)
    (hp : b ≠ [] → breadcrumbIsSelected m (parentOf b) = true) :
    breadcrumbIsSelected m b =
      ((alookup m b).getD (AnyMetadata.base {})).selected.getD
        (((alookup m b).getD (AnyMetadata.base {})).selected_by_default.getD
          (if b = [] then false else breadcrumbIsSelected m (parentOf b))) := by
  have hne : m.isEmpty = false := isEmpty_eq_false_of_ne_nil hm
  rw [breadcrumbIsSelected_eq]
  by_cases hb : b = []
  · subst hb
    cases hsel : ((alookup m ([] : Breadcrumb)).getD (AnyMetadata.base {})).selected with
    | some s => simp [hne, hinc1, hinc2, hsel]
    | none =>
      cases hsbd : ((alookup m ([] : Breadcrumb)).getD
          (AnyMetadata.base {})).selected_by_default with
      | some s => simp [hne, hinc1, hinc2, hsel, hsbd]
      | none => simp [hne, hinc1, hinc2, hsel, hsbd]
  · have hl : 0 < b.length := List.length_pos.mpr hb
    cases hsel : ((alookup m b).getD (AnyMetadata.base {})).selected with
    | some s => simp [hne, hinc1, hinc2, hsel, hl, hp hb, hb]
    | none =>
      cases hsbd : ((alookup m b).getD
          (AnyMetadata.base {})).selected_by_default with
      | some s => simp [hne, hinc1, hinc2, hsel, hsbd, hl, hp hb, hb]
      | none => simp [hne, hinc1, hinc2, hsel, hsbd, hl, hp hb, hb]

theorem fallback_precedence_witness :
    breadcrumbIsSelected exampleM5 [] = true := by
  have h := fallback_precedence exampleM5 [] (by simp [exampleM5])
    (by simp [exampleM5, alookup, AnyMetadata.inclusion])
    (by simp [exampleM5, alookup, AnyMetadata.inclusion])
    (fun hne => absurd rfl hne)
  simpa [exampleM5, alookup, AnyMetadata.selected, AnyMetadata.selected_by_default]
    using h

/-- C5: empty-mapping global fallback — when the metadata mapping is empty,
looking any breadcrumb up in the mask produced by `resolve_selection` yields
`true`. -/
theorem empty_mapping_selects_all (m : MetadataMapping) (b : Breadcrumb)
    (hm : m = []) : maskLookup (resolve_selection m) b = true := by
  subst hm
  rw [show resolve_selection ([] : MetadataMapping) = [] from rfl]
  exact maskLookup_nil b

theorem empty_mapping_selects_all_witness :
    maskLookup (resolve_selection ([] : MetadataMapping)) ["properties", "x"]
      = true :=
  empty_mapping_selects_all [] ["properties", "x"] rfl

theorem resolve_selectionS_foldl_aux (m : MetadataMapping) :
    ∀ (keys : List Breadcrumb) (mask : SelectionMask),
      keys.Nodup → (∀ k ∈ keys, alookup mask k = none) →
      keys.foldl
        (fun acc breadcrumb =>
          let r := breadcrumbIsSelectedS acc.2 breadcrumb
          (mmInsert acc.1 breadcrumb r.1, r.2))
        (mask, m)
      = (mask ++ keys.map fun b => (b, breadcrumbIsSelected m b), m) := by
  intro keys
  induction keys with
  | nil => intro mask _ _; simp
  | cons k rest ih =>
    intro mask hnd hfresh
    rw [List.foldl_cons]
    have hk : alookup mask k = none := hfresh k (List.mem_cons_self k rest)
    have hstep :
        (let r := breadcrumbIsSelectedS (mask, m).2 k
         (mmInsert (mask, m).1 k r.1, r.2))
        = (mask ++ [(k, breadcrumbIsSelected m k)], m) := by
      simp only [breadcrumbIsSelectedS_snd]
      rw [mmInsert_append mask k _ hk]
      rfl
    rw [hstep]
    rw [ih (mask ++ [(k, breadcrumbIsSelected m k)])
      (List.Nodup.of_cons hnd) ?_]
    · simp
    · intro y hy
      rw [alookup_append]
      have h1 : alookup mask y = none := hfresh y (List.mem_cons_of_mem k hy)
      have h2 : k ≠ y := by
        intro hc
        exact (List.nodup_cons.mp hnd).1 (hc ▸ hy)
      simp [h1, alookup, h2]

/-- C8: `resolve_selection` produces a mask whose keys are exactly the
breadcrumbs explicitly present in the mapping, in order, and the call leaves
the mapping unchanged — no entry is materialized for breadcrumbs (such as
parents walked during resolution) that were not already explicit keys. -/
theorem resolve_selection_keys_and_frame (m : MetadataMapping)
    (hnd : (m.map Prod.fst).Nodup) :
    (resolve_selection m).map Prod.fst = m.map Prod.fst ∧
    (resolve_selectionS m).2 = m := by
  have h := resolve_selectionS_foldl_aux m (m.map Prod.fst) [] hnd
    (fun k _ => rfl)
  rw [resolve_selection, resolve_selectionS, h]
  constructor
  · simp [List.map_map, Function.comp]
  · rfl

theorem resolve_selection_keys_and_frame_witness :
    (resolve_selection exampleM1).map Prod.fst = exampleM1.map Prod.fst ∧
    (resolve_selectionS exampleM1).2 = exampleM1 :=
  resolve_selection_keys_and_frame exampleM1 (by simp [exampleM1])

/-- The values that can stand in a serialized metadata dictionary.  Python
stores these untyped in a `dict[str, Any]`; the embedding types the slots by
the union of the field value types that `Metadata` / `StreamMetadata` carry. -/
inductive MetaValue where
  | inclusionVal (i : InclusionType)
  | booleanVal (b : Bool)
  | strListVal (l : List String)
  | stringVal (s : String)
deriving DecidableEq, Repr

/-- A serialized metadata dictionary: string keys in wire (hyphenated)
spelling. -/
abbrev MetaDict := List (String × MetaValue)

def decodeInclusion : Option MetaValue → Option InclusionType
  | some (.inclusionVal i) => some i
  | _ => none

def decodeBool : Option MetaValue → Option Bool
  | some (.booleanVal b) => some b
  | _ => none

def decodeStrList : Option MetaValue → Option (List String)
  | some (.strListVal l) => some l
  | _ => none

def decodeString : Option MetaValue → Option String
  | some (.stringVal s) => some s
  | _ => none

/-- `Metadata.to_dict` (lines 73-82): emit each non-`None` field under its
hyphenated wire name, in dataclass field order. -/
def Metadata.to_dict (m : Metadata) : MetaDict :=
  (match m.inclusion with
   | some i => [("inclusion", MetaValue.inclusionVal i)]
   | none => []) ++
  (match m.selected with
   | some b => [("selected", MetaValue.booleanVal b)]
   | none => []) ++
  (match m.selected_by_default with
   | some b => [("selected-by-default", MetaValue.booleanVal b)]
   | none => [])

/-- `Metadata.from_dict` (lines 63-71): for each dataclass field, read the
hyphenated wire key with `value.get(...)`, leaving the field `None` when the
key is absent. -/
def Metadata.from_dict (d : MetaDict) : Metadata :=
  { inclusion := decodeInclusion (alookup d "inclusion"),
    selected := decodeBool (alookup d "selected"),
    selected_by_default := decodeBool (alookup d "selected-by-default") }

/-- `StreamMetadata` inherits `to_dict` from `Metadata`; `dataclasses.fields`
lists the base fields first, then the stream-level fields. -/
def StreamMetadata.to_dict (m : StreamMetadata) : MetaDict :=
  (match m.inclusion with
   | some i => [("inclusion", MetaValue.inclusionVal i)]
   | none => []) ++
  (match m.selected with
   | some b => [("selected", MetaValue.booleanVal b)]
   | none => []) ++
  (match m.selected_by_default with
   | some b => [("selected-by-default", MetaValue.booleanVal b)]
   | none => []) ++
  (match m.table_key_properties with
   | some l => [("table-key-properties", MetaValue.strListVal l)]
   | none => []) ++
  (match m.forced_replication_method with
   | some s => [("forced-replication-method", MetaValue.stringVal s)]
   | none => []) ++
  (match m.valid_replication_keys with
   | some l => [("valid-replication-keys", MetaValue.strListVal l)]
   | none => []) ++
  (match m.schema_name with
   | some s => [("schema-name", MetaValue.stringVal s)]
   | none => [])

/-- `StreamMetadata` inherits `from_dict` from `Metadata`;
`dataclasses.fields(cls)` covers all seven fields. -/
def StreamMetadata.from_dict (d : MetaDict) : StreamMetadata :=
  { inclusion := decodeInclusion (alookup d "inclusion"),
    selected := decodeBool (alookup d "selected"),
    selected_by_default := decodeBool (alookup d "selected-by-default"),
    table_key_properties := decodeStrList (alookup d "table-key-properties"),
    forced_replication_method :=
      decodeString (alookup d "forced-replication-method"),
    valid_replication_keys := decodeStrList (alookup d "valid-replication-keys"),
    schema_name := decodeString (alookup d "schema-name") }

def AnyMetadata.to_dict : AnyMetadata → MetaDict
  | .base m => m.to_dict
  | .stream m => m.to_dict

/-- One element of the serialized list form: `{"breadcrumb": [...],
"metadata": {...}}`. -/
structure MetaListEntry where
  breadcrumb : Breadcrumb
  metadata : MetaDict
deriving DecidableEq, Repr

/-- `MetadataMapping.to_list` (lines 115-119). -/
def MetadataMapping.to_list (m : MetadataMapping) : List MetaListEntry :=
  m.map fun p => ⟨p.1, p.2.to_dict⟩

/-- `MetadataMapping.from_iterable` (lines 101-113): fold the entries into a
fresh mapping; a non-empty breadcrumb gets a `Metadata` record, the empty
breadcrumb a `StreamMetadata` record (the Python `if breadcrumb:` branches
both assign to `mapping[breadcrumb]`, here hoisted into the inserted value). -/
def MetadataMapping.from_iterable (l : List MetaListEntry) : MetadataMapping :=
  l.foldl
    (fun mapping d =>
      mmInsert mapping d.breadcrumb
        (if d.breadcrumb ≠ [] then .base (Metadata.from_dict d.metadata)
         else .stream (StreamMetadata.from_dict d.metadata)))
    []

theorem metadata_record_roundtrip (m : Metadata) :
    Metadata.from_dict m.to_dict = m := by
  obtain ⟨i, s, d⟩ := m
  cases i <;> cases s <;> cases d <;> rfl

set_option maxHeartbeats 1000000 in
theorem stream_metadata_record_roundtrip (m : StreamMetadata) :
    StreamMetadata.from_dict m.to_dict = m := by
  obtain ⟨i, s, d, tk, fr, vr, sn⟩ := m
  cases i <;> cases s <;> cases d <;> cases tk <;> cases fr <;> cases vr
    <;> cases sn <;> rfl

/-- A mapping entry is shape-consistent when a stream-level record sits
exactly at the empty breadcrumb. -/
def shapeOK : Breadcrumb × AnyMetadata → Bool
  | (k, .stream _) => decide (k = ([] : Breadcrumb))
  | (k, .base _) => !decide (k = ([] : Breadcrumb))

/-- Shape discipline of a mapping: the wire format ties record shape to
breadcrumb emptiness, so a well-formed mapping stores a stream-level record
exactly at the empty breadcrumb.  Key lists of Python dicts are
duplicate-free. -/
def WFMapping (m : MetadataMapping) : Prop :=
  (m.map Prod.fst).Nodup ∧ ∀ p ∈ m, shapeOK p = true

/-- C6: serialization round-trip — parsing the serialized list form of a
well-formed mapping reproduces the mapping exactly: same keys, same records
(hence the same inclusion / selected / selected-by-default values and, at
the root, the same stream-level fields), with hyphenated wire names mapped
back to the underscored internal fields. -/
theorem from_iterable_to_list_roundtrip (m : MetadataMapping)
    (hwf : WFMapping m) :
    MetadataMapping.from_iterable (MetadataMapping.to_list m) = m := by
  obtain ⟨hnd, hshape⟩ := hwf
  rw [MetadataMapping.to_list, MetadataMapping.from_iterable]
  have hfold := foldl_mmInsert_fresh
    (fun d : MetaListEntry => d.breadcrumb)
    (fun d : MetaListEntry =>
      (if d.breadcrumb ≠ [] then .base (Metadata.from_dict d.metadata)
       else AnyMetadata.stream (StreamMetadata.from_dict d.metadata)))
    (m.map fun p => ⟨p.1, p.2.to_dict⟩) []
    (by simpa [List.map_map, Function.comp] using hnd)
    (fun x _ => rfl)
  rw [hfold, List.nil_append, List.map_map]
  have : ∀ p ∈ m,
      ((fun d : MetaListEntry =>
          (d.breadcrumb,
           if d.breadcrumb ≠ [] then .base (Metadata.from_dict d.metadata)
           else AnyMetadata.stream (StreamMetadata.from_dict d.metadata))) ∘
        fun p : Breadcrumb × AnyMetadata => (⟨p.1, p.2.to_dict⟩ : MetaListEntry)) p
        = p := by
    intro p hp
    have hs := hshape p hp
    obtain ⟨k, v⟩ := p
    cases v with
    | stream sm =>
      have hk : k = [] := by simpa [shapeOK] using hs
      subst hk
      simp [AnyMetadata.to_dict, stream_metadata_record_roundtrip]
    | base bm =>
      have hk : ¬ k = [] := by simpa [shapeOK] using hs
      simp [Function.comp, hk, AnyMetadata.to_dict, metadata_record_roundtrip]
  calc m.map _ = m.map id := List.map_congr_left this
    _ = m := List.map_id m

theorem from_iterable_to_list_roundtrip_witness :
    MetadataMapping.from_iterable (MetadataMapping.to_list exampleM4)
      = exampleM4 :=
  from_iterable_to_list_roundtrip exampleM4 ⟨by decide, by decide⟩

/-- `MetadataMapping.__getitem__` with `__missing__` (lines 121-124):
looking a breadcrumb up materializes a default record when absent —
`StreamMetadata()` for the empty breadcrumb, `Metadata()` otherwise — and
returns it together with the updated dict state. -/
def MetadataMapping.getItem (m : MetadataMapping) (b : Breadcrumb) :
    AnyMetadata × MetadataMapping :=
  match alookup m b with
  | some v => (v, m)
  | none =>
    let v : AnyMetadata :=
      if b ≠ [] then .base {} else .stream {}
    (v, mmInsert m b v)

/-- C7: missing-key policy — looking up a breadcrumb with no explicit entry
never fails; it yields a root-shaped (stream-level) default record for the
empty breadcrumb and a non-root default record (all annotation fields unset)
otherwise. -/
theorem getItem_missing_default (m : MetadataMapping) (b : Breadcrumb)
    (h : alookup m b = none) :
    (MetadataMapping.getItem m b).1
      = if b = [] then AnyMetadata.stream {} else AnyMetadata.base {} := by
  rw [MetadataMapping.getItem, h]
  by_cases hb : b = [] <;> simp [hb]

theorem getItem_missing_default_witness :
    (MetadataMapping.getItem [] ([] : Breadcrumb)).1 = AnyMetadata.stream {} := by
  have h := getItem_missing_default [] [] rfl
  simpa using h

/-- A schema document (`dict[str, Any]`), modelled by the parts this core
reads: the ordered key list of its `"properties"` sub-document (when that key
is present), plus a flag recording whether any other keys are present, which
decides Python dict truthiness (`if schema:`). -/
structure SchemaDict where
  properties : Option (List String) := none
  othersPresent : Bool := false
deriving DecidableEq, Repr

/-- Python truthiness of a schema document: a dict is truthy iff non-empty. -/
def SchemaDict.truthy (s : SchemaDict) : Bool :=
  s.properties.isSome || s.othersPresent

/-- Python truthiness of an `Optional[str]`: `None` and `""` are falsy. -/
def pyTruthyStr : Option String → Bool
  | none => false
  | some s => !(s == "")

/-- Python truthiness of an `Optional[list]`: `None` and `[]` are falsy. -/
def pyTruthyList : Option (List String) → Bool
  | none => false
  | some l => !l.isEmpty

/-- The values a stream description document (`dict[str, Any]`) can carry. -/
inductive DocValue where
  | stringVal (s : String)
  | booleanVal (b : Bool)
  | intVal (n : Int)
  | strListVal (l : List String)
  | metaListVal (l : List MetaListEntry)
  | schemaVal (d : SchemaDict)
deriving DecidableEq, Repr

/-- A stream description document. -/
abbrev StreamDoc := List (String × DocValue)

/-- `stream.get("schema", {})`: the schema sub-document, defaulting to the
empty document. -/
def getSchemaDoc (v : Option DocValue) : SchemaDict :=
  match v with
  | some (.schemaVal d) => d
  | _ => {}

/-- `stream.get("metadata", [])`: the metadata list, defaulting to empty. -/
def getMetaListDoc (v : Option DocValue) : List MetaListEntry :=
  match v with
  | some (.metaListVal l) => l
  | _ => []

/-- Modelled from the spec: `SchemaPlus.from_dict` lives in
`singer_sdk/helpers/_schema.py`, which is not among the sources; §4.3 and §7
of the spec treat schema parsing as a collaborator that receives the
(possibly empty) schema sub-document, with parse failures out of this core's
scope.  We model it as a total wrapper around the raw document. -/
structure SchemaPlus where
  raw : SchemaDict
deriving DecidableEq, Repr

def SchemaPlus.from_dict (d : SchemaDict) : SchemaPlus := ⟨d⟩

/-- `CatalogEntry` dataclass (lines 227-242).  The Python constructor
performs no runtime type check on any field, in particular not on
`tap_stream_id`, so the identity slot holds whatever value the document
carried. -/
structure CatalogEntry where
  tap_stream_id : DocValue
  metadata : MetadataMapping
  schema : SchemaPlus
  stream : Option DocValue := none
  key_properties : Option DocValue := none
  replication_key : Option DocValue := none
  is_view : Option DocValue := none
  database : Option DocValue := none
  table : Option DocValue := none
  row_count : Option DocValue := none
  stream_alias : Option DocValue := none
  replication_method : Option DocValue := none
deriving DecidableEq, Repr

/-- `CatalogEntry.from_dict` (lines 244-259): `stream["tap_stream_id"]` is a
bare dict subscript, raising `KeyError` when the key is absent; every other
field is read with `stream.get(...)`, defaulting to `None` (or to `{}` / `[]`
for the schema and metadata sub-documents). -/
def CatalogEntry.from_dict (stream : StreamDoc) : Except String CatalogEntry :=
  match alookup stream "tap_stream_id" with
  | none => .error "KeyError: tap_stream_id"
  | some v =>
    .ok
      { tap_stream_id := v,
        stream := alookup stream "stream",
        replication_key := alookup stream "replication_key",
        key_properties := alookup stream "key_properties",
        database := alookup stream "database_name",
        table := alookup stream "table_name",
        schema := SchemaPlus.from_dict (getSchemaDoc (alookup stream "schema")),
        is_view := alookup stream "is_view",
        stream_alias := alookup stream "stream_alias",
        metadata := MetadataMapping.from_iterable
          (getMetaListDoc (alookup stream "metadata")),
        replication_method := alookup stream "replication_method" }

def exceptIsOk : Except String CatalogEntry → Bool
  | .ok _ => true
  | .error _ => false

/-- C9 counterexample: a document whose `tap_stream_id` is a boolean (not a
string) parses successfully — no error of any class is raised for a
non-string identity. -/
theorem catalog_entry_nonstring_id_parses :
    exceptIsOk
      (CatalogEntry.from_dict [("tap_stream_id", DocValue.booleanVal true)])
      = true := rfl

/-- C9 amended: every field of a stream description is optional except
`tap_stream_id`; when that key is absent, parsing fails with the dict
key-missing error (`KeyError`) surfaced to the caller, and when it is
present — whatever its type — parsing succeeds with the identity stored
verbatim, every other field being omissible. -/
theorem catalog_entry_identity_policy (stream : StreamDoc) :
    (alookup stream "tap_stream_id" = none →
      CatalogEntry.from_dict stream = .error "KeyError: tap_stream_id") ∧
    (∀ v, alookup stream "tap_stream_id" = some v →
      ∃ e, CatalogEntry.from_dict stream = .ok e ∧ e.tap_stream_id = v) := by
  constructor
  · intro h
    rw [CatalogEntry.from_dict, h]
  · intro v h
    rw [CatalogEntry.from_dict, h]
    exact ⟨_, rfl, rfl⟩

theorem catalog_entry_identity_policy_witness :
    CatalogEntry.from_dict [] = .error "KeyError: tap_stream_id" :=
  (catalog_entry_identity_policy []).1 rfl

/-- `MetadataMapping.get_standard_metadata` (lines 132-165): seed a fresh
mapping from a discovered schema.  The per-property entries are inserted
inside the `if schema:` branch; the root record is stored at the empty
breadcrumb after the loop, unconditionally. -/
def MetadataMapping.get_standard_metadata (schema : Option SchemaDict)
    (schema_name : Option String) (key_properties : Option (List String))
    (valid_replication_keys : Option (List String))
    (replication_method : Option String) : MetadataMapping :=
  let mapping : MetadataMapping := []
  let root : StreamMetadata :=
    { table_key_properties := key_properties,
      forced_replication_method := replication_method,
      valid_replication_keys := valid_replication_keys }
  let built : StreamMetadata × MetadataMapping :=
    match schema with
    | some s =>
      if s.truthy then
        let root := { root with inclusion := some InclusionType.available }
        let root :=
          if pyTruthyStr schema_name then { root with schema_name := schema_name }
          else root
        let mapping := (s.properties.getD []).foldl
          (fun mp field_name =>
            let entry : Metadata :=
              if pyTruthyList key_properties
                  && decide (field_name ∈ key_properties.getD []) then
                { inclusion := some InclusionType.automatic }
              else { inclusion := some InclusionType.available }
            mmInsert mp ["properties", field_name] (.base entry))
          mapping
        (root, mapping)
      else (root, mapping)
    | none => (root, mapping)
  mmInsert built.2 [] (.stream built.1)

/-- The root record `get_standard_metadata` stores when a truthy schema is
supplied. -/
def standardRoot (schema_name : Option String)
    (key_properties valid_replication_keys : Option (List String))
    (replication_method : Option String) : StreamMetadata :=
  { inclusion := some InclusionType.available,
    table_key_properties := key_properties,
    forced_replication_method := replication_method,
    valid_replication_keys := valid_replication_keys,
    schema_name := if pyTruthyStr schema_name then schema_name else none }

/-- The entry `get_standard_metadata` stores for a top-level property. -/
def standardEntry (key_properties : Option (List String)) (name : String) :
    Metadata :=
  { inclusion := some
      (if name ∈ key_properties.getD [] then InclusionType.automatic
       else InclusionType.available) }

theorem standardEntry_cond (key_properties : Option (List String))
    (name : String) :
    (if pyTruthyList key_properties && decide (name ∈ key_properties.getD [])
      then ({ inclusion := some InclusionType.automatic } : Metadata)
      else { inclusion := some InclusionType.available })
    = standardEntry key_properties name := by
  rw [standardEntry]
  cases key_properties with
  | none => simp [pyTruthyList]
  | some l =>
    cases l with
    | nil => simp [pyTruthyList]
    | cons x xs =>
      by_cases hmem : name ∈ x :: xs <;> simp [pyTruthyList, hmem]

theorem gsm_loop (key_properties : Option (List String)) :
    ∀ (props : List String) (acc : MetadataMapping), props.Nodup →
      (∀ n ∈ props, alookup acc ["properties", n] = none) →
      props.foldl
        (fun mp field_name =>
          mmInsert mp ["properties", field_name]
            (.base
              (if pyTruthyList key_properties
                  && decide (field_name ∈ key_properties.getD []) then
                { inclusion := some InclusionType.automatic }
              else { inclusion := some InclusionType.available })))
        acc
      = acc ++ props.map fun n =>
          (["properties", n], AnyMetadata.base (standardEntry key_properties n)) := by
  intro props
  induction props with
  | nil => intro acc _ _; simp
  | cons k rest ih =>
    intro acc hnd hfresh
    have hfr2 : ∀ n ∈ rest,
        alookup
          (acc ++ [(["properties", k],
            AnyMetadata.base (standardEntry key_properties k))])
          ["properties", n] = none := by
      intro n hn
      rw [alookup_append]
      have h1 : alookup acc ["properties", n] = none :=
        hfresh n (List.mem_cons_of_mem k hn)
      have h2 : k ≠ n := by
        intro hc
        exact (List.nodup_cons.mp hnd).1 (hc ▸ hn)
      simp [h1, alookup, h2]
    rw [List.foldl_cons,
      mmInsert_append acc _ _ (hfresh k (List.mem_cons_self k rest)),
      standardEntry_cond]
    rw [ih _ (List.Nodup.of_cons hnd) hfr2]
    simp

/-- C10: seed-mapping construction — for a truthy (non-empty) schema the
returned mapping's root record has inclusion `available` and carries the
supplied key properties, replication method and valid replication keys; every
top-level property name gets an entry at `("properties", name)` whose
inclusion is `automatic` when the name is among the supplied key properties
and `available` otherwise; and when the schema has no `properties` listing no
per-field entry is created (the mapping holds just the root record). -/
theorem get_standard_metadata_seed (s : SchemaDict) (schema_name : Option String)
    (key_properties valid_replication_keys : Option (List String))
    (replication_method : Option String) (ht : s.truthy = true)
    (hnd : (s.properties.getD []).Nodup) :
    alookup
        (MetadataMapping.get_standard_metadata (some s) schema_name
          key_properties valid_replication_keys replication_method) []
      = some (.stream (standardRoot schema_name key_properties
          valid_replication_keys replication_method)) ∧
    (∀ name ∈ s.properties.getD [],
      alookup
          (MetadataMapping.get_standard_metadata (some s) schema_name
            key_properties valid_replication_keys replication_method)
          ["properties", name]
        = some (.base (standardEntry key_properties name))) ∧
    (s.properties = none →
      MetadataMapping.get_standard_metadata (some s) schema_name
          key_properties valid_replication_keys replication_method
        = [([], .stream (standardRoot schema_name key_properties
            valid_replication_keys replication_method))]) := by
  have hroot :
      (if pyTruthyStr schema_name then
        ({ table_key_properties := key_properties,
           forced_replication_method := replication_method,
           valid_replication_keys := valid_replication_keys,
           inclusion := some InclusionType.available,
           schema_name := schema_name } : StreamMetadata)
      else
        { table_key_properties := key_properties,
          forced_replication_method := replication_method,
          valid_replication_keys := valid_replication_keys,
          inclusion := some InclusionType.available })
      = standardRoot schema_name key_properties valid_replication_keys
          replication_method := by
    rw [standardRoot]
    by_cases hts : pyTruthyStr schema_name = true
    · simp [hts]
    · simp [hts]
  have hM : MetadataMapping.get_standard_metadata (some s) schema_name
      key_properties valid_replication_keys replication_method
      = ((s.properties.getD []).map fun n =>
          (["properties", n], AnyMetadata.base (standardEntry key_properties n)))
        ++ [([], .stream (standardRoot schema_name key_properties
            valid_replication_keys replication_method))] := by
    unfold MetadataMapping.get_standard_metadata
    simp only [ht, if_true]
    rw [gsm_loop key_properties (s.properties.getD []) [] hnd (fun n _ => rfl)]
    rw [List.nil_append]
    rw [mmInsert_append _ _ _ ?_]
    · rw [hroot]
    · rw [alookup_eq_none]
      intro hmem
      simp only [List.map_map, List.mem_map, Function.comp] at hmem
      obtain ⟨n, _, hn⟩ := hmem
      cases hn
  refine ⟨?_, ?_, ?_⟩
  · rw [hM, alookup_append]
    have hnone : alookup
        ((s.properties.getD []).map fun n =>
          (["properties", n], AnyMetadata.base (standardEntry key_properties n)))
        [] = none := by
      rw [alookup_eq_none]
      intro hmem
      simp only [List.map_map, List.mem_map, Function.comp] at hmem
      obtain ⟨n, _, hn⟩ := hmem
      cases hn
    rw [hnone]
    rfl
  · intro name hmem
    rw [hM, alookup_append]
    have hfind := alookup_map_of_nodup
      (fun n : String => (["properties", n] : Breadcrumb))
      (fun n => AnyMetadata.base (standardEntry key_properties n))
      (s.properties.getD []) name ?_ hmem
    · rw [hfind]
      rfl
    · refine List.Nodup.map ?_ hnd
      intro a b hab
      cases hab
      rfl
  · intro hp
    rw [hM, hp]
    rfl

/-- The seed schema of the spec's worked example. -/
def exampleSchema10 : SchemaDict := { properties := some ["id", "name"] }

theorem get_standard_metadata_seed_witness :
    alookup
        (MetadataMapping.get_standard_metadata (some exampleSchema10) none
          (some ["id"]) none none) []
      = some (.stream
          { inclusion := some InclusionType.available,
            table_key_properties := some ["id"] }) ∧
    alookup
        (MetadataMapping.get_standard_metadata (some exampleSchema10) none
          (some ["id"]) none none) ["properties", "id"]
      = some (.base { inclusion := some InclusionType.automatic }) ∧
    alookup
        (MetadataMapping.get_standard_metadata (some exampleSchema10) none
          (some ["id"]) none none) ["properties", "name"]
      = some (.base { inclusion := some InclusionType.available }) := by
  have h := get_standard_metadata_seed exampleSchema10 none (some ["id"]) none
    none rfl (by decide)
  refine ⟨?_, ?_, ?_⟩
  · simpa [standardRoot, pyTruthyStr] using h.1
  · simpa [standardEntry] using h.2.1 "id" (by decide)
  · simpa [standardEntry] using h.2.1 "name" (by decide)

end SingerSdk
